import Mathlib

/-!
# docker-challenges/pwn-bufoverflow/vuln.c

A shallow embedding of the three functions of `vuln.c` (`print_flag`,
`vulnerable_function`, `main`) and of the C library calls they make
(`printf`, `gets`, `getenv`), followed by the properties proved about them.

Conventions of the embedding.

* A byte is a `UInt8`; text is the list of its UTF-8 bytes, as the compiler
  stores a string constant.
* Memory is a map from addresses (natural numbers) to bytes; `none` stands
  for a null pointer.  `gets` receives only an address, as in C, and stores
  wherever the input takes it; every store is recorded in its result.
* The array `char buffer[64]` is an object of 64 bytes at an address chosen by
  the caller's frame.  Its contents are not initialised by the program, so
  they are whatever the memory held before.
* An access outside those 64 bytes is undefined behaviour in C: what follows
  it is not fixed by the source text.  `vulnerable_function` then yields
  `none`; the stores that `gets` made are still described by `gets` itself.
-/

namespace Vuln

/-- One byte (`char`). -/
abbrev Byte := UInt8

/-- Byte-addressed memory. -/
abbrev Mem := Nat → Byte

/-- The bytes of a string constant of the source (UTF-8, without the final NUL). -/
def utf8 (s : String) : List Byte := s.toUTF8.data.toList

/-- The newline character `'\n'`. -/
def NL : Byte := 10

/-- The string terminator `'\0'`. -/
def NUL : Byte := 0

/-- Capacity of `char buffer[64]` in `vulnerable_function`. -/
def BUFFER_SIZE : Nat := 64

/-- What the program can observe and change: the unread part of standard input
(end of stream after its last byte), the bytes written to standard output so
far, the memory, and the process environment, which gives for a variable name
the characters of its value (those before the terminating NUL) when the
variable is set.  `calls` is a record kept for the proofs: the names of the
functions of `vuln.c` entered so far, in order. -/
structure World where
  stdin : List Byte
  stdout : List Byte
  mem : Mem
  environ : String → Option (List Byte)
  calls : List String

/-- Entry into the function `f` of `vuln.c`: its name is added to the record. -/
def enter (w : World) (f : String) : World :=
  { w with calls := w.calls ++ [f] }

/-- Memory after the assignment `*a = b`. -/
def store (m : Mem) (a : Nat) (b : Byte) : Mem :=
  fun x => if x = a then b else m x

/-- The call `printf(...)` once its conversions are substituted: `out` is
appended to standard output. -/
def printf (w : World) (out : List Byte) : World :=
  { w with stdout := w.stdout ++ out }

/-- The call `getenv(name)`: the value of the variable, `none` (a null pointer)
when it is not set. -/
def getenv (w : World) (name : String) : Option (List Byte) :=
  w.environ name

/-- Result of `gets`: the returned pointer (`none` is `NULL`), the memory
after the call, the stores made, in order, each as (address, byte), and
the input left unread. -/
structure GetsResult where
  ret : Option Nat
  mem : Mem
  stores : List (Nat × Byte)
  rest : List Byte

/-- The loop of `gets(s)` (ISO C99 7.19.7.7): characters are taken from the
input and stored at `s[i]`, `i = 0, 1, ...`, up to a newline, which is consumed
and not stored, or up to end of stream; then a NUL is stored after the last
character.  There is no bound on `i`.  At end of stream with no character read
the array is left unchanged and a null pointer is returned. -/
def gets_loop (s : Nat) : List Byte → Nat → Mem → List (Nat × Byte) → GetsResult
  | [], i, m, st =>
    if i = 0 then ⟨none, m, st, []⟩
    else ⟨some s, store m (s + i) NUL, st ++ [(s + i, NUL)], []⟩
  | c :: cs, i, m, st =>
    if c = NL then ⟨some s, store m (s + i) NUL, st ++ [(s + i, NUL)], cs⟩
    else gets_loop s cs (i + 1) (store m (s + i) c) (st ++ [(s + i, c)])

/-- The call `gets(s)`. -/
def gets (s : Nat) (w : World) : GetsResult :=
  gets_loop s w.stdin 0 w.mem []

/-- The characters that `%s` prints for a pointer `a` into an object of which
`n` bytes remain from `a` on: those before the first NUL.  `none` when no NUL
lies within the object (the scan would leave it). -/
def strscan (m : Mem) : Nat → Nat → Option (List Byte)
  | 0, _ => none
  | n + 1, a => if m a = NUL then some [] else (strscan m n (a + 1)).map (fun l => m a :: l)

/-- The function `print_flag`. -/
def print_flag (w : World) : World :=
  let w := enter w "print_flag"
  match getenv w "FLAG" with
  | some flag =>
    printf w (utf8 "\n🎉 Congratulations! Here\x27s your flag:\n" ++ flag ++ utf8 "\n")
  | none =>
    printf w (utf8 "\n🎉 Flag: flag\x7bbuffer_overflow_pwned\x7d\n")

/-- The function `vulnerable_function`, with `buffer` the address of its local
array.  The result is `none` when `gets` stored outside the array or when the
array holds no NUL for `%s` to stop at. -/
def vulnerable_function (buffer : Nat) (w : World) : Option World :=
  let w := enter w "vulnerable_function"
  let w1 := printf w (utf8 "Enter your input: ")
  let r := gets buffer w1
  let w2 : World := { w1 with stdin := r.rest, mem := r.mem }
  if r.stores.all (fun st => decide (st.1 < buffer + BUFFER_SIZE)) then
    match strscan w2.mem BUFFER_SIZE buffer with
    | some str => some (printf w2 (utf8 "You entered: " ++ str ++ utf8 "\n"))
    | none => none
  else none

/-- The function `main`: the exit status and the final world. -/
def main (buffer : Nat) (w : World) : Option (Int × World) :=
  let w := enter w "main"
  let w1 := printf w (utf8 "=== Buffer Overflow Challenge ===\n")
  let w2 := printf w1 (utf8 "Can you get the flag?\n\n")
  match vulnerable_function buffer w2 with
  | some w3 => some (0, printf w3 (utf8 "\nBye!\n"))
  | none => none

/-- Memory after storing the bytes of `l` at `a, a + 1, ...` (used to describe
the effect of `gets`). -/
def fill (m : Mem) : Nat → List Byte → Mem
  | _, [] => m
  | a, c :: cs => fill (store m a c) (a + 1) cs

/-- The stores that put the bytes of `l` at `a, a + 1, ...`, in order. -/
def trace : Nat → List Byte → List (Nat × Byte)
  | _, [] => []
  | a, c :: cs => (a, c) :: trace (a + 1) cs

/-- What `gets(s)` yields when it reads the line `line` and leaves `rest`. -/
def line_result (s : Nat) (m : Mem) (line rest : List Byte) : GetsResult :=
  ⟨some s, store (fill m s line) (s + line.length) NUL,
    trace s line ++ [(s + line.length, NUL)], rest⟩

/-! ## The library calls -/

/-- The loop of `gets` on a line ended by a newline, started at index `i`. -/
theorem gets_loop_newline (s : Nat) (rest : List Byte) :
    ∀ (line : List Byte) (i : Nat) (m : Mem) (st : List (Nat × Byte)), NL ∉ line →
      gets_loop s (line ++ NL :: rest) i m st =
        ⟨some s, store (fill m (s + i) line) (s + i + line.length) NUL,
          st ++ (trace (s + i) line ++ [(s + i + line.length, NUL)]), rest⟩ := by
  intro line
  induction line with
  | nil => intro i m st _; simp [gets_loop, fill, trace]
  | cons c cs ih =>
    intro i m st h
    have hc : c ≠ NL := fun e => h (by simp [e])
    have hcs : NL ∉ cs := fun e => h (by simp [e])
    rw [List.cons_append, gets_loop, if_neg hc, ih (i + 1) _ _ hcs]
    simp [fill, trace, Nat.add_assoc, Nat.add_comm 1]

/-- The loop of `gets` on a line ended by the end of the stream, when at least
one character is read in all. -/
theorem gets_loop_eof (s : Nat) :
    ∀ (line : List Byte) (i : Nat) (m : Mem) (st : List (Nat × Byte)), NL ∉ line →
      (line ≠ [] ∨ i ≠ 0) →
      gets_loop s line i m st =
        ⟨some s, store (fill m (s + i) line) (s + i + line.length) NUL,
          st ++ (trace (s + i) line ++ [(s + i + line.length, NUL)]), []⟩ := by
  intro line
  induction line with
  | nil =>
    intro i m st _ h
    have hi : i ≠ 0 := by rcases h with h | h; exact absurd rfl h; exact h
    simp [gets_loop, fill, trace, hi]
  | cons c cs ih =>
    intro i m st h _
    have hc : c ≠ NL := fun e => h (by simp [e])
    have hcs : NL ∉ cs := fun e => h (by simp [e])
    rw [gets_loop, if_neg hc, ih (i + 1) _ _ hcs (Or.inr (Nat.succ_ne_zero i))]
    simp [fill, trace, Nat.add_assoc, Nat.add_comm 1]

/-- The call `gets(s)` on a line ended by a newline. -/
theorem gets_newline (s : Nat) (w : World) (line rest : List Byte) (hnl : NL ∉ line)
    (hin : w.stdin = line ++ NL :: rest) : gets s w = line_result s w.mem line rest := by
  simp [gets, hin, gets_loop_newline s rest line 0 w.mem [] hnl, line_result]

/-- The call `gets(s)` on a non-empty line ended by the end of the stream. -/
theorem gets_eof_line (s : Nat) (w : World) (line : List Byte) (hnl : NL ∉ line)
    (hne : line ≠ []) (hin : w.stdin = line) : gets s w = line_result s w.mem line [] := by
  simp [gets, hin, gets_loop_eof s line 0 w.mem [] hnl (Or.inl hne), line_result]

/-- The call `gets(s)` at end of stream: a null pointer, no store, memory as before. -/
theorem gets_eof (s : Nat) (w : World) (hin : w.stdin = []) :
    gets s w = ⟨none, w.mem, [], []⟩ := by
  simp [gets, hin, gets_loop]

/-- Storing a list at `a` leaves the addresses outside `a .. a + length - 1` alone. -/
theorem fill_outside : ∀ (l : List Byte) (m : Mem) (a x : Nat), (x < a ∨ a + l.length ≤ x) →
    fill m a l x = m x := by
  intro l
  induction l with
  | nil => intro m a x _; rfl
  | cons c cs ih =>
    intro m a x h
    simp only [fill]
    rw [ih]
    · have : x ≠ a := by simp only [List.length_cons] at h; omega
      simp [store, this]
    · simp only [List.length_cons] at h; omega

/-- Storing a list at `a` puts its byte `i` at `a + i`. -/
theorem fill_inside : ∀ (l : List Byte) (m : Mem) (a i : Nat) (h : i < l.length),
    fill m a l (a + i) = l[i] := by
  intro l
  induction l with
  | nil => intro m a i h; simp at h
  | cons c cs ih =>
    intro m a i h
    cases i with
    | zero =>
      simp only [fill, Nat.add_zero, List.getElem_cons_zero]
      rw [fill_outside cs _ (a + 1) a (Or.inl (Nat.lt_succ_self a))]
      simp [store]
    | succ j =>
      simp only [fill, List.getElem_cons_succ]
      have e : a + (j + 1) = a + 1 + j := by omega
      rw [e]
      exact ih (store m a c) (a + 1) j (by simpa using h)

/-- The addresses stored to are consecutive from `a`. -/
theorem trace_fst : ∀ (l : List Byte) (a : Nat),
    (trace a l).map Prod.fst = (List.range l.length).map (fun i => a + i) := by
  intro l
  induction l with
  | nil => intro a; rfl
  | cons c cs ih =>
    intro a
    simp only [trace, List.map_cons, ih, List.length_cons, List.range_succ_eq_map, List.map_map]
    simp [Function.comp_def, Nat.add_assoc, Nat.add_comm 1]

/-- The bytes stored are those of the list, in order. -/
theorem trace_snd : ∀ (l : List Byte) (a : Nat), (trace a l).map Prod.snd = l := by
  intro l
  induction l with
  | nil => intro a; rfl
  | cons c cs ih => intro a; simp [trace, ih]

/-- Every store of a list at `a` goes to an address in `a .. a + length - 1`. -/
theorem trace_bounds : ∀ (l : List Byte) (a : Nat) (x : Nat × Byte), x ∈ trace a l →
    a ≤ x.1 ∧ x.1 < a + l.length := by
  intro l
  induction l with
  | nil => intro a x h; simp [trace] at h
  | cons c cs ih =>
    intro a x h
    simp only [trace, List.mem_cons] at h
    rcases h with h | h
    · subst h; simp
    · have := ih (a + 1) x h
      simp only [List.length_cons]; omega

/-- When memory at `a` holds the bytes of `l` followed by NUL, within `n` bytes,
the scan yields the bytes of `l` before its first NUL. -/
theorem strscan_string (m : Mem) : ∀ (l : List Byte) (a n : Nat),
    (∀ (i : Nat) (h : i < l.length), m (a + i) = l[i]) → m (a + l.length) = NUL →
    l.length < n → strscan m n a = some (l.takeWhile (fun b => b != NUL)) := by
  intro l
  induction l with
  | nil =>
    intro a n _ h0 hn
    cases n with
    | zero => simp at hn
    | succ k => simpa [strscan] using h0
  | cons c cs ih =>
    intro a n hl h0 hn
    cases n with
    | zero => simp at hn
    | succ k =>
      have hc : m a = c := by simpa using hl 0 (by simp)
      by_cases hz : c = NUL
      · simp [strscan, hc, hz]
      · have hrec := ih (a + 1) k
          (fun i h => by
            have := hl (i + 1) (by simpa using h)
            simpa [Nat.add_assoc, Nat.add_comm 1] using this)
          (by simpa [Nat.add_assoc, Nat.add_comm 1] using h0)
          (by simpa using hn)
        simp [strscan, hc, hz, hrec]

/-- After a line is read, byte `i` of the line is at offset `i`. -/
theorem line_result_mem_inside (s : Nat) (m : Mem) (line rest : List Byte) (i : Nat)
    (h : i < line.length) : (line_result s m line rest).mem (s + i) = line.get ⟨i, h⟩ := by
  have hne : s + i ≠ s + line.length := by omega
  simp only [line_result, store, if_neg hne, List.get_eq_getElem]
  exact fill_inside line m s i h

/-- After a line is read, NUL is at the offset equal to its length. -/
theorem line_result_mem_end (s : Nat) (m : Mem) (line rest : List Byte) :
    (line_result s m line rest).mem (s + line.length) = NUL := by
  simp [line_result, store]

/-- After a line of `n` bytes is read, memory outside offsets `0 .. n` is as before. -/
theorem line_result_mem_outside (s : Nat) (m : Mem) (line rest : List Byte) (x : Nat)
    (h : x < s ∨ s + line.length < x) : (line_result s m line rest).mem x = m x := by
  have hne : x ≠ s + line.length := by omega
  simp only [line_result, store, if_neg hne]
  exact fill_outside line m s x (by omega)

/-- Every store made for a line of `n` bytes goes to an offset in `0 .. n`. -/
theorem line_result_stores_bounds (s : Nat) (m : Mem) (line rest : List Byte)
    (x : Nat × Byte) (h : x ∈ (line_result s m line rest).stores) :
    s ≤ x.1 ∧ x.1 ≤ s + line.length := by
  simp only [line_result, List.mem_append, List.mem_singleton] at h
  rcases h with h | h
  · have := trace_bounds line s x h; omega
  · subst h; simp

/-! ## The functions of the program -/

/-- The echo of `vulnerable_function` when `gets` read a line that fits. -/
theorem vulnerable_function_of_line (buffer : Nat) (w : World) (line rest : List Byte)
    (hlen : line.length < BUFFER_SIZE)
    (hg : gets buffer (printf (enter w "vulnerable_function") (utf8 "Enter your input: ")) =
      line_result buffer w.mem line rest) :
    vulnerable_function buffer w = some
      { stdin := rest,
        stdout := w.stdout ++ utf8 "Enter your input: " ++
          (utf8 "You entered: " ++ line.takeWhile (fun b => b != NUL) ++ utf8 "\n"),
        mem := (line_result buffer w.mem line rest).mem,
        environ := w.environ,
        calls := w.calls ++ ["vulnerable_function"] } := by
  have hall : (line_result buffer w.mem line rest).stores.all
      (fun st => decide (st.1 < buffer + BUFFER_SIZE)) = true := by
    rw [List.all_eq_true]
    intro x hx
    have := line_result_stores_bounds buffer w.mem line rest x hx
    simp only [decide_eq_true_eq]; omega
  have hscan : strscan (line_result buffer w.mem line rest).mem BUFFER_SIZE buffer =
      some (line.takeWhile (fun b => b != NUL)) :=
    strscan_string _ line buffer BUFFER_SIZE
      (fun i h => by
        simpa only [List.get_eq_getElem] using line_result_mem_inside buffer w.mem line rest i h)
      (line_result_mem_end buffer w.mem line rest) hlen
  simp only [vulnerable_function, hg, hall, if_true, hscan]
  simp [printf, enter, line_result]

/-- At end of stream `gets` fails and leaves the array alone, so the echo shows
what the array held before the call. -/
theorem vulnerable_function_eof (buffer : Nat) (w : World) (hin : w.stdin = []) :
    vulnerable_function buffer w =
      (strscan w.mem BUFFER_SIZE buffer).map (fun str =>
        { stdin := [],
          stdout := w.stdout ++ utf8 "Enter your input: " ++
            (utf8 "You entered: " ++ str ++ utf8 "\n"),
          mem := w.mem,
          environ := w.environ,
          calls := w.calls ++ ["vulnerable_function"] }) := by
  have hg : gets buffer (printf (enter w "vulnerable_function") (utf8 "Enter your input: ")) =
      ⟨none, w.mem, [], []⟩ :=
    gets_eof buffer _ hin
  simp only [vulnerable_function, hg]
  cases strscan w.mem BUFFER_SIZE buffer <;> simp [printf, enter]

/-- The output and exit status of `main` once `vulnerable_function` is known. -/
theorem main_of_vulnerable_function (buffer : Nat) (w w3 : World)
    (h : vulnerable_function buffer
      (printf (printf (enter w "main") (utf8 "=== Buffer Overflow Challenge ===\n"))
        (utf8 "Can you get the flag?\n\n")) = some w3) :
    main buffer w = some (0, printf w3 (utf8 "\nBye!\n")) := by
  simp only [main, h]

/-- A line that fits the array, ended by a newline or (when not empty) by the
end of the stream: what `main` prints and returns. -/
theorem main_of_line (buffer : Nat) (w : World) (line rest : List Byte)
    (hlen : line.length < BUFFER_SIZE) (hnl : NL ∉ line)
    (hin : w.stdin = line ++ NL :: rest ∨ (w.stdin = line ∧ line ≠ [] ∧ rest = [])) :
    main buffer w = some (0,
      { stdin := rest,
        stdout := w.stdout ++ utf8 "=== Buffer Overflow Challenge ===\n" ++
          utf8 "Can you get the flag?\n\n" ++ utf8 "Enter your input: " ++
          (utf8 "You entered: " ++ line.takeWhile (fun b => b != NUL) ++ utf8 "\n") ++
          utf8 "\nBye!\n",
        mem := (line_result buffer w.mem line rest).mem,
        environ := w.environ,
        calls := w.calls ++ ["main", "vulnerable_function"] }) := by
  have hg : ∀ w0 : World, w0.stdin = w.stdin → w0.mem = w.mem →
      gets buffer w0 = line_result buffer w.mem line rest := by
    intro w0 h1 h2
    rcases hin with h | ⟨h, hne, hr⟩
    · rw [← h2]; exact gets_newline buffer w0 line rest hnl (h1.trans h)
    · rw [← h2, hr]; exact gets_eof_line buffer w0 line hnl hne (h1.trans h)
  have hv := vulnerable_function_of_line buffer
    (printf (printf (enter w "main") (utf8 "=== Buffer Overflow Challenge ===\n"))
      (utf8 "Can you get the flag?\n\n")) line rest hlen (hg _ rfl rfl)
  rw [main_of_vulnerable_function buffer w _ hv]
  simp [printf, enter]

/-! ## Echo of the line (C1) -/

/-- C1, counterexample.  The line `A`, NUL, `B` has three bytes, none a newline,
and is ended by a newline; `vulnerable_function` writes `You entered: A` and a
newline, and the text `You entered: ` followed by the three bytes of the line
and a newline occurs nowhere in its output. -/
theorem echo_identity_fails_on_nul :
    ([65, 0, 66] : List Byte).length < 64 ∧ NL ∉ ([65, 0, 66] : List Byte) ∧
    (vulnerable_function 0 ⟨[65, 0, 66, 10], [], fun _ => 0, fun _ => none, []⟩).map
        World.stdout =
      some (utf8 "Enter your input: " ++ (utf8 "You entered: " ++ [65] ++ utf8 "\n")) ∧
    ¬ (utf8 "You entered: " ++ [65, 0, 66] ++ utf8 "\n" <:+:
        utf8 "Enter your input: " ++ (utf8 "You entered: " ++ [65] ++ utf8 "\n")) := by
  refine ⟨by decide, by decide, by rfl, by decide⟩

/-- C1, amended.  For every line of fewer than 64 bytes, none of them a
newline, ended by a newline, `vulnerable_function` writes its prompt and then
`You entered: `, the bytes of the line that come before its first NUL byte and
a newline; when the line has no NUL byte these are all its bytes, unchanged and
in order.  `main` then returns 0. -/
theorem echo_up_to_first_nul (buffer : Nat) (w : World) (line rest : List Byte)
    (hlen : line.length < BUFFER_SIZE) (hnl : NL ∉ line)
    (hin : w.stdin = line ++ NL :: rest) :
    (∃ w', vulnerable_function buffer w = some w' ∧
      w'.stdout = w.stdout ++ utf8 "Enter your input: " ++
        (utf8 "You entered: " ++ line.takeWhile (fun b => b != NUL) ++ utf8 "\n") ∧
      (NUL ∉ line → w'.stdout = w.stdout ++ utf8 "Enter your input: " ++
        (utf8 "You entered: " ++ line ++ utf8 "\n"))) ∧
    (main buffer w).map Prod.fst = some 0 := by
  constructor
  · have hg : gets buffer (printf (enter w "vulnerable_function") (utf8 "Enter your input: ")) =
        line_result buffer w.mem line rest :=
      gets_newline buffer (printf w (utf8 "Enter your input: ")) line rest hnl hin
    refine ⟨_, vulnerable_function_of_line buffer w line rest hlen hg, rfl, ?_⟩
    intro h0
    have htw : line.takeWhile (fun b => b != NUL) = line := by
      rw [List.takeWhile_eq_self_iff]
      intro x hx
      have : x ≠ NUL := fun e => h0 (e ▸ hx)
      simpa using this
    simp only [htw]
  · rw [main_of_line buffer w line rest hlen hnl (Or.inl hin)]
    rfl

/-- C1, witness: the line `hi`. -/
theorem echo_up_to_first_nul_witness :
    (∃ w', vulnerable_function 7 ⟨[104, 105, 10, 1], [], fun _ => 9, fun _ => none, []⟩ =
        some w' ∧
      w'.stdout = [] ++ utf8 "Enter your input: " ++
        (utf8 "You entered: " ++ [104, 105].takeWhile (fun b => b != NUL) ++ utf8 "\n") ∧
      (NUL ∉ ([104, 105] : List Byte) → w'.stdout = [] ++ utf8 "Enter your input: " ++
        (utf8 "You entered: " ++ [104, 105] ++ utf8 "\n"))) ∧
    (main 7 ⟨[104, 105, 10, 1], [], fun _ => 9, fun _ => none, []⟩).map Prod.fst = some 0 :=
  echo_up_to_first_nul 7 ⟨[104, 105, 10, 1], [], fun _ => 9, fun _ => none, []⟩ [104, 105] [1]
    (by decide) (by decide) rfl

/-! ## Empty input (C2) -/

/-- C2, the code at the failing input.  Standard input is at end of stream and
the array holds `A`, NUL from earlier use of the stack: the echo is
`You entered: A`, not the empty echo line.  When the array holds no NUL at all
the scan for the terminator leaves the array and the function has no defined
result. -/
theorem empty_input_at_eof_echoes_old_buffer :
    (vulnerable_function 0 ⟨[], [], fun a => if a = 0 then 65 else 0, fun _ => none, []⟩).map
        World.stdout =
      some (utf8 "Enter your input: " ++ (utf8 "You entered: " ++ [65] ++ utf8 "\n")) ∧
    utf8 "Enter your input: " ++ (utf8 "You entered: " ++ [65] ++ utf8 "\n") ≠
      utf8 "Enter your input: " ++ (utf8 "You entered: " ++ utf8 "\n") ∧
    (vulnerable_function 0 ⟨[], [], fun _ => 65, fun _ => none, []⟩).map World.stdout = none ∧
    (main 0 ⟨[], [], fun _ => 65, fun _ => none, []⟩).map Prod.fst = none := by
  refine ⟨by rfl, by decide, by rfl, by rfl⟩

/-- The second empty-input case of C2, which the code handles: when the first
byte read is a newline the echo is the empty line and `main` returns 0,
whatever the array held. -/
theorem empty_line_echo (buffer : Nat) (w : World) (rest : List Byte)
    (hin : w.stdin = NL :: rest) :
    (∃ w', vulnerable_function buffer w = some w' ∧
      w'.stdout = w.stdout ++ utf8 "Enter your input: " ++ (utf8 "You entered: " ++ utf8 "\n")) ∧
    (main buffer w).map Prod.fst = some 0 := by
  have hlen : ([] : List Byte).length < BUFFER_SIZE := by decide
  have hnl : NL ∉ ([] : List Byte) := by simp
  constructor
  · have hg : gets buffer (printf (enter w "vulnerable_function") (utf8 "Enter your input: ")) =
        line_result buffer w.mem [] rest :=
      gets_newline buffer (printf w (utf8 "Enter your input: ")) [] rest hnl hin
    exact ⟨_, vulnerable_function_of_line buffer w [] rest hlen hg, by simp⟩
  · rw [main_of_line buffer w [] rest hlen hnl (Or.inl hin)]
    rfl

/-! ## The read into the array (C3, C4) -/

/-- The stores of `gets` for a line: addresses `s, s + 1, ..., s + n` in this
order, holding the bytes of the line and then NUL. -/
theorem line_result_stores (s : Nat) (m : Mem) (line rest : List Byte) :
    (line_result s m line rest).stores.map Prod.fst =
        (List.range (line.length + 1)).map (fun i => s + i) ∧
    (line_result s m line rest).stores.map Prod.snd = line ++ [NUL] := by
  constructor
  · simp [line_result, trace_fst, List.range_succ]
  · simp [line_result, trace_snd]

/-- The call `gets(buffer)` on a line ended by a newline or, when not empty, by
the end of the stream. -/
theorem gets_of_line (buffer : Nat) (w : World) (line rest : List Byte)
    (hnl : NL ∉ line)
    (hin : w.stdin = line ++ NL :: rest ∨ (w.stdin = line ∧ line ≠ [] ∧ rest = [])) :
    gets buffer w = line_result buffer w.mem line rest := by
  rcases hin with h | ⟨h, hne, hr⟩
  · exact gets_newline buffer w line rest hnl h
  · rw [hr]
    exact gets_eof_line buffer w line hnl hne h

/-- C3.  For every line of at most 63 bytes (none a newline; ended by a newline
or, when not empty, by the end of the stream) the call `gets(buffer)`, in
whatever state it is made and so in `vulnerable_function`, puts byte `i` of the
line at offset `i` of the array and NUL at offset `n`, the length of the line,
with `n ≤ 63`.  Its stores go to offsets `0, 1, ..., n` and to no other place:
each lies within the 64 bytes of the array, and memory outside the array is as
before. -/
theorem gets_short_line_stays_in_buffer (buffer : Nat) (w : World) (line rest : List Byte)
    (hlen : line.length ≤ BUFFER_SIZE - 1) (hnl : NL ∉ line)
    (hin : w.stdin = line ++ NL :: rest ∨ (w.stdin = line ∧ line ≠ [] ∧ rest = [])) :
    (∀ (i : Nat) (h : i < line.length), (gets buffer w).mem (buffer + i) = line.get ⟨i, h⟩) ∧
    (gets buffer w).mem (buffer + line.length) = NUL ∧
    line.length ≤ 63 ∧
    (gets buffer w).stores.map Prod.fst =
      (List.range (line.length + 1)).map (fun i => buffer + i) ∧
    (gets buffer w).stores.map Prod.snd = line ++ [NUL] ∧
    (∀ st ∈ (gets buffer w).stores, buffer ≤ st.1 ∧ st.1 < buffer + BUFFER_SIZE) ∧
    (∀ a : Nat, (a < buffer ∨ buffer + BUFFER_SIZE ≤ a) → (gets buffer w).mem a = w.mem a) := by
  have h63 : line.length ≤ 63 := hlen
  rw [gets_of_line buffer w line rest hnl hin]
  refine ⟨fun i h => line_result_mem_inside buffer w.mem line rest i h,
    line_result_mem_end buffer w.mem line rest, h63,
    (line_result_stores buffer w.mem line rest).1,
    (line_result_stores buffer w.mem line rest).2, ?_, ?_⟩
  · intro st hst
    have := line_result_stores_bounds buffer w.mem line rest st hst
    have h64 : BUFFER_SIZE = 64 := rfl
    omega
  · intro a ha
    have h64 : BUFFER_SIZE = 64 := rfl
    exact line_result_mem_outside buffer w.mem line rest a (by omega)

/-- C3, witness: a line of exactly 63 bytes; the NUL goes to offset 63, the last
byte of the array. -/
theorem gets_short_line_stays_in_buffer_witness :
    (gets 100 ⟨List.replicate 63 65 ++ NL :: [], [], fun _ => 7, fun _ => none, []⟩).mem
      (100 + (List.replicate 63 65).length) = NUL ∧
    (gets 100
        ⟨List.replicate 63 65 ++ NL :: [], [], fun _ => 7, fun _ => none, []⟩).stores.map
      Prod.snd = List.replicate 63 65 ++ [NUL] :=
  have h := gets_short_line_stays_in_buffer 100
    ⟨List.replicate 63 65 ++ NL :: [], [], fun _ => 7, fun _ => none, []⟩
    (List.replicate 63 65) [] (by decide) (by decide) (Or.inl rfl)
  ⟨h.2.1, h.2.2.2.2.1⟩

/-- C4.  For every line of `n` bytes, with no bound on `n` (none a newline;
ended by a newline or, when not empty, by the end of the stream), the call
`gets(buffer)`, in whatever state it is made and so in `vulnerable_function`,
returns the array, not a null pointer, has consumed the line, has put byte `i`
of the line at offset `i` for every `i < n` and NUL at offset `n`, by `n + 1`
stores to the offsets `0, 1, ..., n` in this order; memory below the array and
above offset `n` is as before.  So when `n ≥ 64` it stores at each offset `k`
with `64 ≤ k ≤ n`, beyond the 64 bytes of the array. -/
theorem gets_copies_whole_line (buffer : Nat) (w : World) (line rest : List Byte)
    (hnl : NL ∉ line)
    (hin : w.stdin = line ++ NL :: rest ∨ (w.stdin = line ∧ line ≠ [] ∧ rest = [])) :
    (gets buffer w).ret = some buffer ∧
    (gets buffer w).rest = rest ∧
    (∀ (i : Nat) (h : i < line.length), (gets buffer w).mem (buffer + i) = line.get ⟨i, h⟩) ∧
    (gets buffer w).mem (buffer + line.length) = NUL ∧
    (gets buffer w).stores.map Prod.fst =
      (List.range (line.length + 1)).map (fun i => buffer + i) ∧
    (gets buffer w).stores.map Prod.snd = line ++ [NUL] ∧
    (∀ a : Nat, (a < buffer ∨ buffer + line.length < a) → (gets buffer w).mem a = w.mem a) ∧
    (∀ k : Nat, BUFFER_SIZE ≤ k → k ≤ line.length →
      buffer + BUFFER_SIZE ≤ buffer + k ∧ buffer + k ∈ (gets buffer w).stores.map Prod.fst) := by
  rw [gets_of_line buffer w line rest hnl hin]
  refine ⟨rfl, rfl, fun i h => line_result_mem_inside buffer w.mem line rest i h,
    line_result_mem_end buffer w.mem line rest,
    (line_result_stores buffer w.mem line rest).1,
    (line_result_stores buffer w.mem line rest).2,
    fun a ha => line_result_mem_outside buffer w.mem line rest a ha, ?_⟩
  intro k hk hkn
  refine ⟨by omega, ?_⟩
  rw [(line_result_stores buffer w.mem line rest).1]
  exact List.mem_map.mpr ⟨k, List.mem_range.mpr (by omega), rfl⟩

/-- C4, witness: a line of 70 bytes; offset 64, just past the array, is stored to. -/
theorem gets_copies_whole_line_witness :
    (gets 0 ⟨List.replicate 70 65 ++ NL :: [1, 2], [], fun _ => 7, fun _ => none, []⟩).ret =
      some 0 ∧
    0 + 64 ∈ (gets 0
      ⟨List.replicate 70 65 ++ NL :: [1, 2], [], fun _ => 7, fun _ => none, []⟩).stores.map
        Prod.fst :=
  have h := gets_copies_whole_line 0
    ⟨List.replicate 70 65 ++ NL :: [1, 2], [], fun _ => 7, fun _ => none, []⟩
    (List.replicate 70 65) [1, 2] (by decide) (Or.inl rfl)
  ⟨h.1, (h.2.2.2.2.2.2.2 64 (by decide) (by decide)).2⟩

/-! ## The flag routine (C5, C6, C10) -/

/-- The two messages of `print_flag` differ (at the letter after the emoji). -/
theorem congratulations_ne_fallback (flag : List Byte) :
    utf8 "\n🎉 Congratulations! Here\x27s your flag:\n" ++ flag ++ utf8 "\n" ≠
      utf8 "\n🎉 Flag: flag\x7bbuffer_overflow_pwned\x7d\n" := by
  intro h
  have h7 := congrArg (List.take 7) h
  rw [List.append_assoc, List.take_append_of_le_length (by decide)] at h7
  revert h7
  decide

/-- C5.  Whenever `FLAG` is not set, `print_flag` returns normally and what it
writes is exactly a newline, then `🎉 Flag: flag{buffer_overflow_pwned}`, then a
newline; the fallback string `flag{buffer_overflow_pwned}` occurs in it.
Nothing but standard output changes. -/
theorem print_flag_fallback (w : World) (h : w.environ "FLAG" = none) :
    (print_flag w).stdout = w.stdout ++
      (utf8 "\n" ++ utf8 "🎉 Flag: flag\x7bbuffer_overflow_pwned\x7d" ++ utf8 "\n") ∧
    (utf8 "flag\x7bbuffer_overflow_pwned\x7d" <:+:
      utf8 "\n" ++ utf8 "🎉 Flag: flag\x7bbuffer_overflow_pwned\x7d" ++ utf8 "\n") ∧
    (print_flag w).stdin = w.stdin ∧ (print_flag w).mem = w.mem ∧
    (print_flag w).environ = w.environ := by
  have hmsg : utf8 "\n🎉 Flag: flag\x7bbuffer_overflow_pwned\x7d\n" =
      utf8 "\n" ++ utf8 "🎉 Flag: flag\x7bbuffer_overflow_pwned\x7d" ++ utf8 "\n" := by decide
  refine ⟨?_, by decide, ?_, ?_, ?_⟩ <;> simp only [print_flag, getenv, enter, h, printf, hmsg]

/-- C5, witness: an environment with no variable at all. -/
theorem print_flag_fallback_witness :
    (print_flag ⟨[], [], fun _ => 0, fun _ => none, []⟩).stdout = [] ++
      (utf8 "\n" ++ utf8 "🎉 Flag: flag\x7bbuffer_overflow_pwned\x7d" ++ utf8 "\n") :=
  (print_flag_fallback ⟨[], [], fun _ => 0, fun _ => none, []⟩ rfl).1

/-- C6.  Whenever `FLAG` is set to a string `S` (non-empty or not), what
`print_flag` writes is a newline, `🎉 Congratulations! Here's your flag:`, a
newline, `S` itself and a newline; `S` occurs in it unmodified and it is not
the fallback message. -/
theorem print_flag_from_environment (w : World) (S : List Byte)
    (h : w.environ "FLAG" = some S) :
    (print_flag w).stdout = w.stdout ++
      (utf8 "\n" ++ utf8 "🎉 Congratulations! Here\x27s your flag:" ++ utf8 "\n" ++ S ++
        utf8 "\n") ∧
    (S <:+: utf8 "\n" ++ utf8 "🎉 Congratulations! Here\x27s your flag:" ++ utf8 "\n" ++ S ++
        utf8 "\n") ∧
    (print_flag w).stdout ≠ w.stdout ++ utf8 "\n🎉 Flag: flag\x7bbuffer_overflow_pwned\x7d\n" := by
  have hmsg : utf8 "\n🎉 Congratulations! Here\x27s your flag:\n" =
      utf8 "\n" ++ utf8 "🎉 Congratulations! Here\x27s your flag:" ++ utf8 "\n" := by decide
  have hout : (print_flag w).stdout = w.stdout ++
      (utf8 "\n🎉 Congratulations! Here\x27s your flag:\n" ++ S ++ utf8 "\n") := by
    simp only [print_flag, getenv, enter, h, printf]
  refine ⟨by rw [hout, hmsg], ?_, ?_⟩
  · exact ⟨utf8 "\n" ++ utf8 "🎉 Congratulations! Here\x27s your flag:" ++ utf8 "\n", utf8 "\n",
      rfl⟩
  · rw [hout]
    intro e
    exact congratulations_ne_fallback S (List.append_cancel_left e)

/-- C6, witness: `FLAG` set to `abc`. -/
theorem print_flag_from_environment_witness :
    (print_flag ⟨[], [1], fun _ => 0,
        fun n => if n = "FLAG" then some [97, 98, 99] else none, []⟩).stdout =
      [1] ++ (utf8 "\n" ++ utf8 "🎉 Congratulations! Here\x27s your flag:" ++ utf8 "\n" ++
        [97, 98, 99] ++ utf8 "\n") :=
  (print_flag_from_environment
    ⟨[], [1], fun _ => 0, fun n => if n = "FLAG" then some [97, 98, 99] else none, []⟩
    [97, 98, 99] (by decide)).1

/-- C10.  `print_flag` writes the fallback message exactly when `FLAG` is not
set, whatever a set value contains; and when `FLAG` is set to the empty string
it writes the `Congratulations! Here's your flag:` line followed by an empty
line, in which the fallback flag does not occur. -/
theorem print_flag_branches_on_presence (w : World) :
    ((print_flag w).stdout = w.stdout ++ utf8 "\n🎉 Flag: flag\x7bbuffer_overflow_pwned\x7d\n" ↔
      w.environ "FLAG" = none) ∧
    (w.environ "FLAG" = some [] →
      (print_flag w).stdout = w.stdout ++
        (utf8 "\n🎉 Congratulations! Here\x27s your flag:\n" ++ utf8 "\n") ∧
      ¬ (utf8 "flag\x7bbuffer_overflow_pwned\x7d" <:+:
        utf8 "\n🎉 Congratulations! Here\x27s your flag:\n" ++ utf8 "\n")) := by
  constructor
  · constructor
    · intro e
      cases hf : w.environ "FLAG" with
      | none => rfl
      | some S =>
        exfalso
        simp only [print_flag, getenv, enter, hf, printf] at e
        exact congratulations_ne_fallback S (List.append_cancel_left e)
    · intro hf
      simp only [print_flag, getenv, enter, hf, printf]
  · intro hf
    refine ⟨?_, by decide⟩
    simp only [print_flag, getenv, enter, hf, printf, List.append_nil]

/-- C10, witness: `FLAG` set to the empty string. -/
theorem print_flag_branches_on_presence_witness :
    (print_flag ⟨[], [], fun _ => 0, fun n => if n = "FLAG" then some [] else none, []⟩).stdout =
      [] ++ (utf8 "\n🎉 Congratulations! Here\x27s your flag:\n" ++ utf8 "\n") :=
  ((print_flag_branches_on_presence
    ⟨[], [], fun _ => 0, fun n => if n = "FLAG" then some [] else none, []⟩).2 (by decide)).1

/-! ## The driver (C7, C8) -/

/-- C7.  For every line of at most 63 bytes (none a newline; ended by a newline
or, when not empty, by the end of the stream), `main` runs to completion and
returns 0 having entered `main` and `vulnerable_function` and no other function
of the program, so not `print_flag`; and two runs on the same input whose
environments differ, in `FLAG` or anywhere else, write the same standard output
and return the same status.  The two runs may also differ in the address and
in the old contents of the array. -/
theorem main_does_not_depend_on_FLAG (buffer₁ buffer₂ : Nat) (w₁ w₂ : World)
    (line rest : List Byte) (hlen : line.length ≤ 63) (hnl : NL ∉ line)
    (hin : w₁.stdin = line ++ NL :: rest ∨ (w₁.stdin = line ∧ line ≠ [] ∧ rest = []))
    (hstdin : w₂.stdin = w₁.stdin) (hstdout : w₂.stdout = w₁.stdout) :
    ∃ f₁ f₂ : World, main buffer₁ w₁ = some (0, f₁) ∧ main buffer₂ w₂ = some (0, f₂) ∧
      f₁.stdout = f₂.stdout ∧
      f₁.calls = w₁.calls ++ ["main", "vulnerable_function"] ∧
      f₂.calls = w₂.calls ++ ["main", "vulnerable_function"] ∧
      "print_flag" ∉ ["main", "vulnerable_function"] := by
  have hlen64 : line.length < BUFFER_SIZE := Nat.lt_succ_of_le hlen
  refine ⟨_, _, main_of_line buffer₁ w₁ line rest hlen64 hnl hin,
    main_of_line buffer₂ w₂ line rest hlen64 hnl (hstdin ▸ hin), ?_, rfl, rfl, by decide⟩
  simp only [hstdout]

/-- C7, witness: the line `hi`, once with `FLAG` unset and once with `FLAG` set. -/
theorem main_does_not_depend_on_FLAG_witness :
    ∃ f₁ f₂ : World,
      main 0 ⟨[104, 105, 10], [], fun _ => 0, fun _ => none, []⟩ = some (0, f₁) ∧
      main 8 ⟨[104, 105, 10], [], fun _ => 1,
        fun n => if n = "FLAG" then some [97] else none, []⟩ = some (0, f₂) ∧
      f₁.stdout = f₂.stdout ∧ f₁.calls = [] ++ ["main", "vulnerable_function"] :=
  have h := main_does_not_depend_on_FLAG 0 8
    ⟨[104, 105, 10], [], fun _ => 0, fun _ => none, []⟩
    ⟨[104, 105, 10], [], fun _ => 1, fun n => if n = "FLAG" then some [97] else none, []⟩
    [104, 105] [] (by decide) (by decide) (Or.inl rfl) rfl rfl
  match h with
  | ⟨f₁, f₂, h₁, h₂, h₃, h₄, _⟩ => ⟨f₁, f₂, h₁, h₂, h₃, h₄⟩

/-- C8, counterexample.  On the line `A`, NUL, `B` (three bytes, ended by a
newline) `main` returns 0 and writes the banner, the prompt, `You entered: A`
and the farewell; `You entered: ` followed by the line and a newline occurs
nowhere in its output, which holds no NUL byte at all. -/
theorem main_echo_fails_on_nul :
    ([65, 0, 66] : List Byte).length ≤ 63 ∧ NL ∉ ([65, 0, 66] : List Byte) ∧
    (main 0 ⟨[65, 0, 66, 10], [], fun _ => 0, fun _ => none, []⟩).map
        (fun r => (r.1, r.2.stdout)) =
      some (0, utf8 "=== Buffer Overflow Challenge ===\n" ++ utf8 "Can you get the flag?\n\n" ++
        utf8 "Enter your input: " ++ (utf8 "You entered: " ++ [65] ++ utf8 "\n") ++
        utf8 "\nBye!\n") ∧
    ¬ (utf8 "You entered: " ++ [65, 0, 66] ++ utf8 "\n" <:+:
      utf8 "=== Buffer Overflow Challenge ===\n" ++ utf8 "Can you get the flag?\n\n" ++
        utf8 "Enter your input: " ++ (utf8 "You entered: " ++ [65] ++ utf8 "\n") ++
        utf8 "\nBye!\n") ∧
    NUL ∉ utf8 "=== Buffer Overflow Challenge ===\n" ++ utf8 "Can you get the flag?\n\n" ++
        utf8 "Enter your input: " ++ (utf8 "You entered: " ++ [65] ++ utf8 "\n") ++
        utf8 "\nBye!\n" := by
  have hno : NUL ∉ utf8 "=== Buffer Overflow Challenge ===\n" ++
      utf8 "Can you get the flag?\n\n" ++ utf8 "Enter your input: " ++
      (utf8 "You entered: " ++ [65] ++ utf8 "\n") ++ utf8 "\nBye!\n" := by decide
  refine ⟨by decide, by decide, by rfl, fun h => hno (h.subset ?_), hno⟩
  simp [NUL]

/-- C8, amended.  For every line of at most 63 bytes (none a newline; ended by
a newline or, when not empty, by the end of the stream) `main` returns 0
whatever the line contains, and what it writes is, in this order and nothing
else: the banner lines `=== Buffer Overflow Challenge ===` and
`Can you get the flag?` and an empty line; the prompt `Enter your input: `;
`You entered: `, the bytes of the line that come before its first NUL byte
(all of the line when it has none) and a newline; an empty line and `Bye!` as
the last line. -/
theorem main_output_in_order (buffer : Nat) (w : World) (line rest : List Byte)
    (hlen : line.length ≤ 63) (hnl : NL ∉ line)
    (hin : w.stdin = line ++ NL :: rest ∨ (w.stdin = line ∧ line ≠ [] ∧ rest = [])) :
    ∃ f : World, main buffer w = some (0, f) ∧
      f.stdout = w.stdout ++
        (utf8 "=== Buffer Overflow Challenge ===" ++ utf8 "\n" ++
          utf8 "Can you get the flag?" ++ utf8 "\n" ++ utf8 "\n" ++
          utf8 "Enter your input: " ++
          utf8 "You entered: " ++ line.takeWhile (fun b => b != NUL) ++ utf8 "\n" ++
          utf8 "\n" ++ utf8 "Bye!" ++ utf8 "\n") ∧
      (NUL ∉ line → line.takeWhile (fun b => b != NUL) = line) := by
  have hlen64 : line.length < BUFFER_SIZE := Nat.lt_succ_of_le hlen
  have h1 : utf8 "=== Buffer Overflow Challenge ===\n" =
      utf8 "=== Buffer Overflow Challenge ===" ++ utf8 "\n" := by decide
  have h2 : utf8 "Can you get the flag?\n\n" =
      utf8 "Can you get the flag?" ++ utf8 "\n" ++ utf8 "\n" := by decide
  have h3 : utf8 "\nBye!\n" = utf8 "\n" ++ utf8 "Bye!" ++ utf8 "\n" := by decide
  refine ⟨_, main_of_line buffer w line rest hlen64 hnl hin, ?_, ?_⟩
  · simp only [h1, h2, h3, List.append_assoc]
  · intro h0
    rw [List.takeWhile_eq_self_iff]
    intro x hx
    have : x ≠ NUL := fun e => h0 (e ▸ hx)
    simpa using this

/-- C8, witness: the line `hi`. -/
theorem main_output_in_order_witness :
    ∃ f : World, main 0 ⟨[104, 105, 10], [], fun _ => 0, fun _ => none, []⟩ = some (0, f) ∧
      f.stdout = [] ++
        (utf8 "=== Buffer Overflow Challenge ===" ++ utf8 "\n" ++
          utf8 "Can you get the flag?" ++ utf8 "\n" ++ utf8 "\n" ++
          utf8 "Enter your input: " ++
          utf8 "You entered: " ++ [104, 105].takeWhile (fun b => b != NUL) ++ utf8 "\n" ++
          utf8 "\n" ++ utf8 "Bye!" ++ utf8 "\n") :=
  match main_output_in_order 0 ⟨[104, 105, 10], [], fun _ => 0, fun _ => none, []⟩
      [104, 105] [] (by decide) (by decide) (Or.inl rfl) with
  | ⟨f, h₁, h₂, _⟩ => ⟨f, h₁, h₂⟩

end Vuln
